import Mathlib

/-!
Verification development for the MusicStructureVisualizer repository.

The program's numeric code is shallowly embedded here:

* JavaScript 32-bit bitwise operators (used by `src/js/z-order.js` and the
  TypeScript copy in `src/unnamed/part_004`) are modelled over `Int`:
  each operator converts its operands to 32-bit two-complement integers;
  `toUint32 n` is the unsigned bit pattern of that conversion and
  `toInt32 n` its signed value.  `<<` and `>>` mask the shift count with 32,
  and `>>` is the arithmetic (sign-propagating) shift, i.e. floor division
  by a power of two.
* Real-number arithmetic of the pipeline (window intervals, rounding,
  RMS averaging) is modelled over `ℚ`; every concrete constant appearing in
  the claims (344.53125, 344531.25, ...) is exactly representable both in
  binary floating point and in `ℚ`.
* `Math.round` is `round` (round half up: `⌊x + 1/2⌋`), `Math.floor` is
  `Int.floor`.
-/

set_option maxRecDepth 4000

def toUint32 (n : Int) : Nat := (n % 4294967296).toNat

def toInt32 (n : Int) : Int :=
  if toUint32 n < 2147483648 then (toUint32 n : Int) else (toUint32 n : Int) - 4294967296

/-- JS `a & b`. -/
def jsAnd (a b : Int) : Int := toInt32 (toUint32 a &&& toUint32 b)

/-- JS `a | b`. -/
def jsOr (a b : Int) : Int := toInt32 (toUint32 a ||| toUint32 b)

/-- JS `a << b`. -/
def jsShl (a b : Int) : Int := toInt32 (((toUint32 a <<< (toUint32 b % 32)) % 4294967296 : Nat))

/-- JS `a >> b` (arithmetic shift = floor division of the signed value). -/
def jsShr (a b : Int) : Int := Int.fdiv (toInt32 a) ((2 : Int) ^ (toUint32 b % 32))

/-- Loop body of `interleave` in src/js/z-order.js:
`z |= ((x & (1 << i)) << i) | ((y & (1 << i)) << (i + 1))`. -/
def istep (x y : Int) (z : Int) (i : Nat) : Int :=
  jsOr z (jsOr (jsShl (jsAnd x (jsShl 1 (i : Int))) (i : Int))
               (jsShl (jsAnd y (jsShl 1 (i : Int))) ((i : Int) + 1)))

/-- src/js/z-order.js `interleave(x, y)`: the loop `for (i = 0; i < 16; i++)`. -/
def interleave (x y : Int) : Int := (List.range 16).foldl (istep x y) 0

/-- Loop body of `getZOrderCoordinates` in src/js/z-order.js:
`x |= (index & (1 << (2*i))) >> i; y |= (index & (1 << (2*i+1))) >> (i+1)`. -/
def zstep (index : Int) (p : Int × Int) (i : Nat) : Int × Int :=
  (jsOr p.1 (jsShr (jsAnd index (jsShl 1 (2 * (i : Int)))) (i : Int)),
   jsOr p.2 (jsShr (jsAnd index (jsShl 1 (2 * (i : Int) + 1))) ((i : Int) + 1)))

/-- src/js/z-order.js `getZOrderCoordinates(index)` (the `width` argument of the
source is unused there and omitted). -/
def getZOrderCoordinates (index : Int) : Int × Int :=
  (List.range 16).foldl (zstep index) (0, 0)

/-- src/src/ui-controller2.ts line 648: `windowsPerSecond = (bpm / 60) * samplesPerBeat`. -/
def windowsPerSecond (bpm samplesPerBeat : ℚ) : ℚ := bpm / 60 * samplesPerBeat

/-- src/src/ui-controller2.ts line 649: `windowIntervalSeconds = 1 / windowsPerSecond`. -/
def windowIntervalSeconds (bpm samplesPerBeat : ℚ) : ℚ := 1 / windowsPerSecond bpm samplesPerBeat

/-- src/src/ui-controller2.ts line 650: `windowIntervalSamples = windowIntervalSeconds * sampleRate`. -/
def windowIntervalSamples (bpm samplesPerBeat sampleRate : ℚ) : ℚ :=
  windowIntervalSeconds bpm samplesPerBeat * sampleRate

/-- src/src/ui-controller2.ts line 724 (also line 782):
`startSample = Math.round(i * windowIntervalSamples)`, computed fresh for each `i`. -/
def startSampleOf (i : Nat) (intervalSamples : ℚ) : Int := round ((i : ℚ) * intervalSamples)

/-- src/src/ui-controller2.ts line 657:
`totalWindows = Math.floor(audioLength / windowIntervalSamples)` (an integer that is
negative when the interval is negative, hence `Int`-valued). -/
def totalWindowsJS (audioLength : Nat) (intervalSamples : ℚ) : Int :=
  Int.floor ((audioLength : ℚ) / intervalSamples)

/-- src/src/ui-controller2.ts line 653:
`zOrderOffset = Math.round(zOrderOffsetSeconds * windowsPerSecond)`. -/
def zOrderOffsetOf (zOrderOffsetSeconds bpm samplesPerBeat : ℚ) : Int :=
  round (zOrderOffsetSeconds * windowsPerSecond bpm samplesPerBeat)

/-- src/src/ui-controller2.ts lines 660-664.  `totalBits = Math.ceil(Math.log2 totalWindows)`
is the ceiling of the real base-2 logarithm, i.e. `Nat.clog 2` on naturals;
`xBits = Math.ceil(totalBits / 2)`, `yBits = Math.floor(totalBits / 2)`,
`canvasWidth = 2 ^ xBits`, `canvasHeight = 2 ^ yBits`. -/
def canvasGeometry (totalWindows : Nat) : Nat × Nat :=
  let totalBits := Nat.clog 2 totalWindows
  let xBits := (totalBits + 1) / 2
  let yBits := totalBits / 2
  (2 ^ xBits, 2 ^ yBits)


/-- The x-accumulator summand of the `getZOrderCoordinates` loop:
`(index & (1 << (2 * i))) >> i`. -/
def xterm (index : Int) (i : Nat) : Int :=
  jsShr (jsAnd index (jsShl 1 (2 * (i : Int)))) (i : Int)

/-- The y-accumulator summand of the `getZOrderCoordinates` loop:
`(index & (1 << (2 * i + 1))) >> (i + 1)`. -/
def yterm (index : Int) (i : Nat) : Int :=
  jsShr (jsAnd index (jsShl 1 (2 * (i : Int) + 1))) ((i : Int) + 1)

/-- The x-summand of the `interleave` loop: `(x & (1 << i)) << i`. -/
def ixterm (x : Int) (i : Nat) : Int := jsShl (jsAnd x (jsShl 1 (i : Int))) (i : Int)

/-- The y-summand of the `interleave` loop: `(y & (1 << i)) << (i + 1)`. -/
def iyterm (y : Int) (i : Nat) : Int := jsShl (jsAnd y (jsShl 1 (i : Int))) ((i : Int) + 1)

/-- Mathematical description of a deinterleaving accumulator after `k` loop steps:
the bits of `p` at positions `f 0, f 1, ...` packed into bits `0, 1, ...`. -/
def bitsAt (f : Nat → Nat) (p : Nat) : Nat → Nat
  | 0 => 0
  | k + 1 => bitsAt f p k ||| (if p.testBit (f k) then 2 ^ k else 0)

/-- Even bit positions. -/
def evIdx (j : Nat) : Nat := 2 * j

/-- Odd bit positions. -/
def odIdx (j : Nat) : Nat := 2 * j + 1

/-- Mathematical description of the interleaving accumulator after `k` loop steps:
bit `i` of `xp` goes to position `2 * i`, bit `i` of `yp` to position `2 * i + 1`. -/
def ibits (xp yp : Nat) : Nat → Nat
  | 0 => 0
  | k + 1 =>
      ibits xp yp k |||
        ((if xp.testBit k then 2 ^ (2 * k) else 0) ||| (if yp.testBit k then 2 ^ (2 * k + 1) else 0))


/-- Sum-of-squares loop of `calculateRMSPower` (src/unnamed/part_000 lines 16-18):
`for (let i = startSample; i < endSample; i++) sum += audioData[i] * audioData[i]`. -/
def sumSquares (audioData : List ℚ) (startSample endSample : Nat) : ℚ :=
  (List.range' startSample (endSample - startSample)).foldl
    (fun sum i => sum + audioData.getD i 0 * audioData.getD i 0) 0

/-- The radicand of `calculateRMSPower` (src/unnamed/part_000 lines 11-21):
`endSample = Math.min(startSample + windowSize, audioData.length)`,
`actualWindowSize = endSample - startSample`, and `sum / actualWindowSize`. -/
def rmsMeanSquare (audioData : List ℚ) (startSample windowSize : Nat) : ℚ :=
  let endSample := min (startSample + windowSize) audioData.length
  let actualWindowSize := endSample - startSample
  sumSquares audioData startSample endSample / (actualWindowSize : ℚ)

/-- src/unnamed/part_000 `calculateRMSPower`: `Math.sqrt(sum / actualWindowSize)`. -/
noncomputable def calculateRMSPower (audioData : List ℚ) (startSample windowSize : Nat) : ℝ :=
  Real.sqrt ((rmsMeanSquare audioData startSample windowSize : ℚ) : ℝ)

/-- The numeric prelude of `processAudio` (src/src/ui-controller2.ts lines 646-657).
The `Option` codomain records whether a configuration error is surfaced to the
caller before processing begins; the source contains no validation branch of any
kind, so the computation is unconditionally carried out and the result is
always `some (windowIntervalSamples, zOrderOffset, totalWindows)`. -/
def processAudioPrelude (bpm samplesPerBeat sampleRate zOrderOffsetSeconds : ℚ)
    (audioLength : Nat) : Option (ℚ × Int × Int) :=
  some (windowIntervalSamples bpm samplesPerBeat sampleRate,
        zOrderOffsetOf zOrderOffsetSeconds bpm samplesPerBeat,
        totalWindowsJS audioLength (windowIntervalSamples bpm samplesPerBeat sampleRate))

/-! JS numbers as consumed by `powerToColor`, with `none` modelling `NaN`;
the JS operators used there propagate `NaN` (`Math.min`, `Math.max`,
`Math.floor`, subtraction, multiplication, division all return `NaN` on a
`NaN` operand, and `===` is false on `NaN`). -/

/-- JS subtraction with NaN propagation. -/
def jsSub : Option ℚ → Option ℚ → Option ℚ
  | some a, some b => some (a - b)
  | _, _ => none

/-- JS division with NaN propagation.  A zero divisor is modelled as `none`;
in `powerToColor` the divisor `maxPower - minPower` is never zero because the
`minPower === maxPower` branch has already returned. -/
def jsDivQ : Option ℚ → Option ℚ → Option ℚ
  | some a, some b => if b = 0 then none else some (a / b)
  | _, _ => none

/-- JS multiplication with NaN propagation. -/
def jsMul : Option ℚ → Option ℚ → Option ℚ
  | some a, some b => some (a * b)
  | _, _ => none

/-- JS `Math.min` (NaN if either operand is NaN). -/
def jsMin : Option ℚ → Option ℚ → Option ℚ
  | some a, some b => some (min a b)
  | _, _ => none

/-- JS `Math.max` (NaN if either operand is NaN). -/
def jsMax : Option ℚ → Option ℚ → Option ℚ
  | some a, some b => some (max a b)
  | _, _ => none

/-- JS `===` on numbers: false whenever an operand is NaN. -/
def jsStrictEq : Option ℚ → Option ℚ → Bool
  | some a, some b => a == b
  | _, _ => false

/-- JS `Math.floor`, as an array index (NaN floor stays NaN). -/
def jsFloorIdx : Option ℚ → Option Int
  | some a => some ⌊a⌋
  | none => none

/-- An RGBA color, four byte values. -/
abbrev RGBA := Nat × Nat × Nat × Nat

/-- src/unnamed/part_003 lines 15-26 (identical JS version in src/unnamed/part_001),
`powerToColor(power, minPower, maxPower)`.  The fixed 256-entry Viridis table is
data external to the algorithm and is passed in as `table`.  A `none` result
models the TypeError thrown when `viridisMap[index]` is `undefined` (an index
that is `NaN` or out of the table range), at
`const [r, g, b] = viridisMap[index]`. -/
def powerToColor (table : Nat → Nat × Nat × Nat) (power minPower maxPower : Option ℚ) :
    Option RGBA :=
  if jsStrictEq minPower maxPower then
    some ((table 128).1, (table 128).2.1, (table 128).2.2, 255)
  else
    match jsFloorIdx (jsMul (jsMax (some 0) (jsMin (some 1)
        (jsDivQ (jsSub power minPower) (jsSub maxPower minPower)))) (some 255)) with
    | none => none
    | some z =>
        if 0 ≤ z ∧ z ≤ 255 then
          some ((table z.toNat).1, (table z.toNat).2.1, (table z.toNat).2.2, 255)
        else none

/-- The three cached band power arrays (`state.cachedRGBPowers`). -/
structure RGBPowers where
  low : List ℚ
  mid : List ℚ
  high : List ℚ

/-- The per-band maxima (`state.maxPowerRGB`). -/
structure MaxPowerRGB where
  low : ℚ
  mid : ℚ
  high : ℚ

/-- The visualization mode (`state.cachedVizMode`). -/
inductive VizMode
  | mono
  | rgb
deriving DecidableEq

/-- The fields of the application state read by `redrawCanvas`
(src/src/types.ts lines 37-44). -/
structure AppState where
  cachedPowers : Option (List ℚ)
  cachedRGBPowers : Option RGBPowers
  cachedCanvasWidth : Nat
  cachedCanvasHeight : Nat
  cachedSamplesPerBeat : ℚ
  cachedVizMode : VizMode
  maxPowerMono : ℚ
  maxPowerRGB : MaxPowerRGB

/-- An `ImageData` pixel buffer: a byte store indexed by (integer) position.
JS typed arrays silently ignore writes at canonical numeric indices outside
`[0, len)`, which `setByte` reproduces. -/
structure ImageDataModel where
  len : Nat
  data : Int → Nat

/-- One JS typed-array write `imageData.data[idx] = v`. -/
def setByte (img : ImageDataModel) (idx : Int) (v : Nat) : ImageDataModel :=
  if 0 ≤ idx ∧ idx < (img.len : Int) then
    { img with data := fun j => if j = idx then v else img.data j }
  else img

/-- The four consecutive byte writes at `pixelIndex` performed for one window. -/
def writePixel (img : ImageDataModel) (pixelIndex : Int) (c : RGBA) : ImageDataModel :=
  setByte (setByte (setByte (setByte img pixelIndex c.1)
    (pixelIndex + 1) c.2.1) (pixelIndex + 2) c.2.2.1) (pixelIndex + 3) c.2.2.2

/-- One iteration of the mono render loop (src/unnamed/part_003 lines 55-67, and
the same shape in `processMonoMode`, src/src/ui-controller2.ts lines 728-738):
`index = i + zOrderOffset`; Morton coordinates; then
`if (x < width && y < height)` compute the color and write the four bytes at
`pixelIndex = (y * width + x) * 4`; otherwise nothing.  The `none` branch of
`powerToColor` (a thrown TypeError, unreachable for rational inputs, see
`powerToColor_total_of_rat`) leaves the buffer unchanged. -/
def monoWindowDraw (table : Nat → Nat × Nat × Nat) (width height : Nat)
    (maxPowerMono : ℚ) (zOrderOffset : Int) (p : ℚ) (i : Nat)
    (img : ImageDataModel) : ImageDataModel :=
  let xy := getZOrderCoordinates ((i : Int) + zOrderOffset)
  if xy.1 < (width : Int) ∧ xy.2 < (height : Int) then
    match powerToColor table (some p) (some 0) (some maxPowerMono) with
    | some col => writePixel img ((xy.2 * width + xy.1) * 4) col
    | none => img
  else img

/-- `Math.floor(Math.min(1, p / maxP) * 255)`, one channel byte of the RGB render
loop.  `ℚ` gives `p / 0 = 0` where JS would give an infinity; the pipeline
replaces a zero maximum by `1.0` before rendering, so the case does not arise. -/
def rgbByte (p maxP : ℚ) : Int := ⌊min 1 (p / maxP) * 255⌋

/-- One iteration of the RGB render loop (src/unnamed/part_003 lines 70-89, and
the same shape in `processRGBMode`): bound check then four byte writes. -/
def rgbWindowDraw (width height : Nat) (maxP : MaxPowerRGB) (zOrderOffset : Int)
    (pl pm ph : ℚ) (i : Nat) (img : ImageDataModel) : ImageDataModel :=
  let xy := getZOrderCoordinates ((i : Int) + zOrderOffset)
  if xy.1 < (width : Int) ∧ xy.2 < (height : Int) then
    writePixel img ((xy.2 * width + xy.1) * 4)
      ((rgbByte pl maxP.low).toNat, (rgbByte pm maxP.mid).toNat,
       (rgbByte ph maxP.high).toNat, 255)
  else img

/-- src/unnamed/part_003 `redrawCanvas(state, canvas, zOrderOffset)`.  The
returned pair is (the state as the function leaves it, the image handed to
`putImageData`); the source assigns to no field of `state`, reading only the
cached values, so the first component is the incoming state itself.  The fresh
`createImageData` buffer plus the initial alpha loop (lines 46-49) make a
buffer that is zero except for opaque alpha every fourth byte. -/
def redrawCanvas (table : Nat → Nat × Nat × Nat) (state : AppState)
    (zOrderOffset : Int) : AppState × Option ImageDataModel :=
  match state.cachedPowers, state.cachedRGBPowers with
  | none, none => (state, none)
  | _, _ =>
    let w := state.cachedCanvasWidth
    let h := state.cachedCanvasHeight
    let img0 : ImageDataModel :=
      { len := w * h * 4, data := fun j => if j % 4 = 3 then 255 else 0 }
    let img :=
      match state.cachedVizMode, state.cachedPowers with
      | VizMode.mono, some powers =>
          (List.range powers.length).foldl
            (fun im i =>
              monoWindowDraw table w h state.maxPowerMono zOrderOffset
                (powers.getD i 0) i im) img0
      | _, _ =>
          match state.cachedRGBPowers with
          | some bands =>
              (List.range bands.low.length).foldl
                (fun im i =>
                  rgbWindowDraw w h state.maxPowerRGB zOrderOffset
                    (bands.low.getD i 0) (bands.mid.getD i 0) (bands.high.getD i 0)
                    i im) img0
          | none => img0
    (state, some img)

/-- src/js/playback.js `getCanvasPositionForTime(time, params)` (lines 22-45).
The leading falsy test on `cachedSamplesPerBeat`/`cachedCanvasSize` is the zero
test; `windowIndex = Math.floor(time / windowIntervalSeconds)`; the square
canvas bound check uses `cachedCanvasSize` for both coordinates. -/
def getCanvasPositionForTime (time bpm cachedSamplesPerBeat : ℚ)
    (cachedCanvasSize : Nat) (zOrderOffset : Int) : Option (Int × Int) :=
  if cachedSamplesPerBeat = 0 ∨ cachedCanvasSize = 0 then none
  else
    let wis := windowIntervalSeconds bpm cachedSamplesPerBeat
    let windowIndex : Int := ⌊time / wis⌋
    let adjustedIndex := windowIndex + zOrderOffset
    let xy := getZOrderCoordinates adjustedIndex
    if (cachedCanvasSize : Int) ≤ xy.1 ∨ (cachedCanvasSize : Int) ≤ xy.2 then none
    else some xy

/-- src/js/playback.js `getTimeForCanvasClick(canvasX, canvasY, params)`
(lines 54-77).  `Math.floor` of the integer coordinates is the identity;
`zOrderIndex = interleave(x, y)`; `windowIndex = zOrderIndex - zOrderOffset`;
`time = windowIndex * windowIntervalSeconds`, null when outside
`[0, audioDuration]`. -/
def getTimeForCanvasClick (canvasX canvasY : Int) (bpm cachedSamplesPerBeat : ℚ)
    (zOrderOffset : Int) (audioDuration : ℚ) : Option ℚ :=
  if cachedSamplesPerBeat = 0 then none
  else
    let wis := windowIntervalSeconds bpm cachedSamplesPerBeat
    let zOrderIndex := interleave canvasX canvasY
    let windowIndex := zOrderIndex - zOrderOffset
    let time := (windowIndex : ℚ) * wis
    if time < 0 ∨ audioDuration < time then none
    else some time

/-- Helper to evaluate `Nat.clog 2` at concrete arguments. -/
lemma clog_two_eq (n k : Nat) (hk : 0 < k) (h1 : 2 ^ (k - 1) < n) (h2 : n ≤ 2 ^ k) :
    Nat.clog 2 n = k := by
  refine le_antisymm ((Nat.le_pow_iff_clog_le one_lt_two).mp h2) ?_
  by_contra h
  have hle : Nat.clog 2 n ≤ k - 1 := by omega
  have := (Nat.le_pow_iff_clog_le one_lt_two).mpr hle
  omega


/-! Basic facts about the 32-bit conversions. -/

lemma toUint32_lt (n : Int) : toUint32 n < 4294967296 := by
  unfold toUint32; omega

lemma toUint32_natCast (p : Nat) (h : p < 4294967296) : toUint32 (p : Int) = p := by
  unfold toUint32; omega

lemma toUint32_toInt32 (n : Int) : toUint32 (toInt32 n) = toUint32 n := by
  unfold toInt32 toUint32; split <;> omega

lemma toInt32_bounds (n : Int) : -2147483648 ≤ toInt32 n ∧ toInt32 n < 2147483648 := by
  unfold toInt32 toUint32; split <;> omega

lemma toInt32_of_range (n : Int) (h1 : -2147483648 ≤ n) (h2 : n < 2147483648) : toInt32 n = n := by
  unfold toInt32 toUint32; split <;> omega

lemma toInt32_natCast (p : Nat) (h : p < 2147483648) : toInt32 (p : Int) = p :=
  toInt32_of_range _ (by omega) (by omega)

lemma eq_of_toUint32_eq (a b : Int) (ha1 : -2147483648 ≤ a) (ha2 : a < 2147483648)
    (hb1 : -2147483648 ≤ b) (hb2 : b < 2147483648) (h : toUint32 a = toUint32 b) : a = b := by
  unfold toUint32 at h; omega

lemma value_from_pattern (v : Int) (hv1 : -2147483648 ≤ v) (hv2 : v < 2147483648)
    (h : toUint32 v < 2147483648) : v = ((toUint32 v : Nat) : Int) := by
  unfold toUint32 at *; omega

/-! Generic bit bounds. -/

lemma testBit_false_of_lt (a k i : Nat) (ha : a < 2 ^ k) (hik : k ≤ i) : a.testBit i = false :=
  Nat.testBit_lt_two_pow (lt_of_lt_of_le ha (Nat.pow_le_pow_right (by norm_num) hik))

lemma lor_lt_pow (a b k : Nat) (ha : a < 2 ^ k) (hb : b < 2 ^ k) : a ||| b < 2 ^ k := by
  refine Nat.lt_pow_two_of_testBit _ (fun i hi => ?_)
  rw [Nat.testBit_lor, testBit_false_of_lt a k i ha hi, testBit_false_of_lt b k i hb hi]
  rfl

/-! Bit patterns of the JS operators. -/

lemma toUint32_jsAnd (a b : Int) : toUint32 (jsAnd a b) = toUint32 a &&& toUint32 b := by
  unfold jsAnd
  rw [toUint32_toInt32, toUint32_natCast _ (lt_of_le_of_lt Nat.and_le_left (toUint32_lt a))]

lemma toUint32_jsOr (a b : Int) : toUint32 (jsOr a b) = toUint32 a ||| toUint32 b := by
  unfold jsOr
  rw [toUint32_toInt32, toUint32_natCast]
  have e32 : (4294967296 : Nat) = 2 ^ 32 := by norm_num
  rw [e32]
  exact lor_lt_pow _ _ 32 (e32 ▸ toUint32_lt a) (e32 ▸ toUint32_lt b)

lemma jsOr_bounds (a b : Int) : -2147483648 ≤ jsOr a b ∧ jsOr a b < 2147483648 :=
  toInt32_bounds _

lemma jsOr_natCast (a b : Nat) (ha : a < 2147483648) (hb : b < 2147483648) :
    jsOr (a : Int) (b : Int) = ((a ||| b : Nat) : Int) := by
  have e31 : (2147483648 : Nat) = 2 ^ 31 := by norm_num
  have hor : a ||| b < 2147483648 := by
    rw [e31]; exact lor_lt_pow _ _ 31 (e31 ▸ ha) (e31 ▸ hb)
  unfold jsOr
  rw [toUint32_natCast a (by omega), toUint32_natCast b (by omega), toInt32_natCast _ hor]

/-- Evaluation of `1 << k` for a shift count at most 30. -/
lemma jsShl_one (k : Nat) (hk : k ≤ 30) : jsShl 1 (k : Int) = ((2 ^ k : Nat) : Int) := by
  have hlt : (2 : Nat) ^ k < 2147483648 := by
    calc (2 : Nat) ^ k ≤ 2 ^ 30 := Nat.pow_le_pow_right (by norm_num) hk
    _ < 2147483648 := by norm_num
  unfold jsShl
  rw [show toUint32 1 = 1 from by decide, toUint32_natCast k (by omega),
    Nat.mod_eq_of_lt (by omega : k < 32), Nat.shiftLeft_eq, one_mul,
    Nat.mod_eq_of_lt (by omega), toInt32_natCast _ hlt]

/-- Evaluation of `1 << 31`: the sign bit, a negative 32-bit value. -/
lemma jsShl_one_31 : jsShl 1 ((31 : Nat) : Int) = -2147483648 := by decide

lemma land_two_pow_eval (p k : Nat) : p &&& 2 ^ k = if p.testBit k then 2 ^ k else 0 := by
  rw [Nat.and_two_pow]
  by_cases hb : p.testBit k <;> simp [hb]

/-- Value of the x-summand of the deinterleave loop. -/
lemma xterm_eval (n : Int) (i : Nat) (hi : i ≤ 15) :
    xterm n i = ((if (toUint32 n).testBit (2 * i) then 2 ^ i else 0 : Nat) : Int) := by
  have hcast : (2 * (i : Int)) = ((2 * i : Nat) : Int) := by push_cast; ring
  have hp32 : (2 : Nat) ^ (2 * i) < 4294967296 := by
    calc (2 : Nat) ^ (2 * i) ≤ 2 ^ 30 := Nat.pow_le_pow_right (by norm_num) (by omega)
    _ < 4294967296 := by norm_num
  have hp31 : (2 : Nat) ^ (2 * i) < 2147483648 := by
    calc (2 : Nat) ^ (2 * i) ≤ 2 ^ 30 := Nat.pow_le_pow_right (by norm_num) (by omega)
    _ < 2147483648 := by norm_num
  unfold xterm
  rw [hcast, jsShl_one (2 * i) (by omega)]
  unfold jsAnd
  rw [toUint32_natCast _ hp32, land_two_pow_eval]
  by_cases hb : (toUint32 n).testBit (2 * i)
  · rw [if_pos hb, if_pos hb, toInt32_natCast _ hp31]
    unfold jsShr
    rw [toInt32_of_range _ (le_trans (show (-2147483648 : Int) ≤ 0 from by norm_num) (by positivity)) (by exact_mod_cast hp31),
      toUint32_natCast i (by omega), Nat.mod_eq_of_lt (by omega)]
    have hsplit : ((2 ^ (2 * i) : Nat) : Int) = ((2 ^ i : Nat) : Int) * 2 ^ i := by
      push_cast
      rw [two_mul, pow_add]
    rw [hsplit, Int.mul_fdiv_cancel _ (by positivity)]
  · rw [if_neg hb, if_neg hb]
    rw [show ((0 : Nat) : Int) = 0 from rfl, toInt32_of_range 0 (by norm_num) (by norm_num)]
    unfold jsShr
    rw [toInt32_of_range 0 (by norm_num) (by norm_num), Int.zero_fdiv]

/-- Value of the y-summand of the deinterleave loop below the sign bit. -/
lemma yterm_eval (n : Int) (i : Nat) (hi : i ≤ 14) :
    yterm n i = ((if (toUint32 n).testBit (2 * i + 1) then 2 ^ i else 0 : Nat) : Int) := by
  have hcast : (2 * (i : Int) + 1) = ((2 * i + 1 : Nat) : Int) := by push_cast; ring
  have hp32 : (2 : Nat) ^ (2 * i + 1) < 4294967296 := by
    calc (2 : Nat) ^ (2 * i + 1) ≤ 2 ^ 29 := Nat.pow_le_pow_right (by norm_num) (by omega)
    _ < 4294967296 := by norm_num
  have hp31 : (2 : Nat) ^ (2 * i + 1) < 2147483648 := by
    calc (2 : Nat) ^ (2 * i + 1) ≤ 2 ^ 29 := Nat.pow_le_pow_right (by norm_num) (by omega)
    _ < 2147483648 := by norm_num
  unfold yterm
  rw [hcast, jsShl_one (2 * i + 1) (by omega)]
  unfold jsAnd
  rw [toUint32_natCast _ hp32, land_two_pow_eval]
  by_cases hb : (toUint32 n).testBit (2 * i + 1)
  · rw [if_pos hb, if_pos hb, toInt32_natCast _ hp31]
    unfold jsShr
    rw [toInt32_of_range _ (le_trans (show (-2147483648 : Int) ≤ 0 from by norm_num) (by positivity)) (by exact_mod_cast hp31)]
    have hicast : ((i : Int) + 1) = ((i + 1 : Nat) : Int) := by push_cast; ring
    rw [hicast, toUint32_natCast (i + 1) (by omega), Nat.mod_eq_of_lt (by omega)]
    have hsplit : ((2 ^ (2 * i + 1) : Nat) : Int) = ((2 ^ i : Nat) : Int) * 2 ^ (i + 1) := by
      push_cast
      rw [show 2 * i + 1 = i + (i + 1) by omega, pow_add]
    rw [hsplit, Int.mul_fdiv_cancel _ (by positivity)]
  · rw [if_neg hb, if_neg hb]
    rw [show ((0 : Nat) : Int) = 0 from rfl, toInt32_of_range 0 (by norm_num) (by norm_num)]
    unfold jsShr
    rw [toInt32_of_range 0 (by norm_num) (by norm_num), Int.zero_fdiv]

/-- Value of the y-summand at `i = 15`: the sign bit of the index is shifted
arithmetically, producing a negative contribution when set. -/
lemma yterm_eval_15 (n : Int) :
    yterm n 15 = if (toUint32 n).testBit 31 then (-32768 : Int) else 0 := by
  have hcast : (2 * ((15 : Nat) : Int) + 1) = ((31 : Nat) : Int) := by norm_num
  unfold yterm
  rw [hcast, jsShl_one_31]
  unfold jsAnd
  rw [show toUint32 (-2147483648) = 2147483648 from by decide]
  rw [show (2147483648 : Nat) = 2 ^ 31 from by norm_num, land_two_pow_eval]
  by_cases hb : (toUint32 n).testBit 31
  · rw [if_pos hb, if_pos hb]
    rw [show toInt32 ((2 ^ 31 : Nat) : Int) = -2147483648 from by decide]
    unfold jsShr
    rw [toInt32_of_range _ (by norm_num) (by norm_num)]
    rw [show ((15 : Nat) : Int) + 1 = ((16 : Nat) : Int) from by norm_num,
      toUint32_natCast 16 (by norm_num), Nat.mod_eq_of_lt (by norm_num)]
    rw [show (-2147483648 : Int) = -32768 * 2 ^ 16 from by norm_num,
      Int.mul_fdiv_cancel _ (by norm_num)]
  · rw [if_neg hb, if_neg hb]
    rw [show toInt32 ((0 : Nat) : Int) = 0 from by decide]
    unfold jsShr
    rw [toInt32_of_range 0 (by norm_num) (by norm_num), Int.zero_fdiv]

/-- Value of the x-summand of the interleave loop. -/
lemma ixterm_eval (x : Int) (i : Nat) (hi : i ≤ 15) :
    ixterm x i = ((if (toUint32 x).testBit i then 2 ^ (2 * i) else 0 : Nat) : Int) := by
  have hpi32 : (2 : Nat) ^ i < 4294967296 := by
    calc (2 : Nat) ^ i ≤ 2 ^ 15 := Nat.pow_le_pow_right (by norm_num) hi
    _ < 4294967296 := by norm_num
  have hp31 : (2 : Nat) ^ (2 * i) < 2147483648 := by
    calc (2 : Nat) ^ (2 * i) ≤ 2 ^ 30 := Nat.pow_le_pow_right (by norm_num) (by omega)
    _ < 2147483648 := by norm_num
  have hpi31 : (2 : Nat) ^ i < 2147483648 := by
    calc (2 : Nat) ^ i ≤ 2 ^ 15 := Nat.pow_le_pow_right (by norm_num) hi
    _ < 2147483648 := by norm_num
  unfold ixterm
  rw [jsShl_one i (by omega)]
  unfold jsAnd
  rw [toUint32_natCast _ hpi32, land_two_pow_eval]
  by_cases hb : (toUint32 x).testBit i
  · rw [if_pos hb, if_pos hb, toInt32_natCast _ hpi31]
    unfold jsShl
    rw [toUint32_natCast _ hpi32, toUint32_natCast i (by omega),
      Nat.mod_eq_of_lt (by omega : i < 32), Nat.shiftLeft_eq,
      show (2 : Nat) ^ i * 2 ^ i = 2 ^ (2 * i) from by rw [two_mul, pow_add],
      Nat.mod_eq_of_lt (by omega), toInt32_natCast _ hp31]
  · rw [if_neg hb, if_neg hb]
    rw [show toInt32 ((0 : Nat) : Int) = 0 from by decide]
    unfold jsShl
    rw [show toUint32 0 = 0 from by decide, Nat.zero_shiftLeft, Nat.zero_mod,
      show toInt32 ((0 : Nat) : Int) = 0 from by decide]
    norm_num

/-- Value of the y-summand of the interleave loop below the top bit. -/
lemma iyterm_eval (y : Int) (i : Nat) (hi : i ≤ 14) :
    iyterm y i = ((if (toUint32 y).testBit i then 2 ^ (2 * i + 1) else 0 : Nat) : Int) := by
  have hpi32 : (2 : Nat) ^ i < 4294967296 := by
    calc (2 : Nat) ^ i ≤ 2 ^ 14 := Nat.pow_le_pow_right (by norm_num) hi
    _ < 4294967296 := by norm_num
  have hp31 : (2 : Nat) ^ (2 * i + 1) < 2147483648 := by
    calc (2 : Nat) ^ (2 * i + 1) ≤ 2 ^ 29 := Nat.pow_le_pow_right (by norm_num) (by omega)
    _ < 2147483648 := by norm_num
  have hpi31 : (2 : Nat) ^ i < 2147483648 := by
    calc (2 : Nat) ^ i ≤ 2 ^ 14 := Nat.pow_le_pow_right (by norm_num) hi
    _ < 2147483648 := by norm_num
  unfold iyterm
  rw [jsShl_one i (by omega)]
  unfold jsAnd
  rw [toUint32_natCast _ hpi32, land_two_pow_eval]
  by_cases hb : (toUint32 y).testBit i
  · rw [if_pos hb, if_pos hb, toInt32_natCast _ hpi31]
    unfold jsShl
    rw [toUint32_natCast _ hpi32,
      show ((i : Int) + 1) = ((i + 1 : Nat) : Int) from by push_cast; ring,
      toUint32_natCast (i + 1) (by omega),
      Nat.mod_eq_of_lt (by omega : i + 1 < 32), Nat.shiftLeft_eq,
      show (2 : Nat) ^ i * 2 ^ (i + 1) = 2 ^ (2 * i + 1) from by
        rw [show 2 * i + 1 = i + (i + 1) from by omega, pow_add 2 i (i + 1)],
      Nat.mod_eq_of_lt (by omega), toInt32_natCast _ hp31]
  · rw [if_neg hb, if_neg hb]
    rw [show toInt32 ((0 : Nat) : Int) = 0 from by decide]
    unfold jsShl
    rw [show toUint32 0 = 0 from by decide, Nat.zero_shiftLeft, Nat.zero_mod,
      show toInt32 ((0 : Nat) : Int) = 0 from by decide]
    norm_num

/-- Value of the y-summand of the interleave loop at `i = 15`: bit 15 of `y`
lands on bit 31, which is negative as a 32-bit signed value. -/
lemma iyterm_eval_15 (y : Int) :
    iyterm y 15 = if (toUint32 y).testBit 15 then (-2147483648 : Int) else 0 := by
  unfold iyterm
  rw [jsShl_one 15 (by norm_num)]
  unfold jsAnd
  rw [toUint32_natCast _ (by norm_num), land_two_pow_eval]
  by_cases hb : (toUint32 y).testBit 15
  · rw [if_pos hb, if_pos hb, toInt32_natCast _ (by norm_num)]
    unfold jsShl
    rw [toUint32_natCast _ (by norm_num),
      show ((15 : Nat) : Int) + 1 = ((16 : Nat) : Int) from by norm_num,
      toUint32_natCast 16 (by norm_num)]
    decide
  · rw [if_neg hb, if_neg hb]
    rw [show toInt32 ((0 : Nat) : Int) = 0 from by decide]
    unfold jsShl
    rw [show toUint32 0 = 0 from by decide, Nat.zero_shiftLeft, Nat.zero_mod,
      show toInt32 ((0 : Nat) : Int) = 0 from by decide]

/-- The pattern of the y-summand of the interleave loop at `i = 15`. -/
lemma toUint32_iyterm_15 (y : Int) :
    toUint32 (iyterm y 15) = if (toUint32 y).testBit 15 then 2 ^ 31 else 0 := by
  rw [iyterm_eval_15]
  by_cases hb : (toUint32 y).testBit 15 <;> simp only [hb, if_true, if_false] <;> decide

/-! Facts about `bitsAt` and `ibits`. -/

lemma bitsAt_lt (f : Nat → Nat) (p k : Nat) : bitsAt f p k < 2 ^ k := by
  induction k with
  | zero => simp [bitsAt]
  | succ k ih =>
      rw [bitsAt]
      refine lor_lt_pow _ _ _ (lt_trans ih (by norm_num [pow_succ])) ?_
      by_cases hb : p.testBit (f k)
      · rw [if_pos hb]
        calc (2 : Nat) ^ k < 2 ^ k * 2 := by omega
        _ = 2 ^ (k + 1) := by rw [pow_succ]
      · rw [if_neg hb]; positivity

lemma testBit_bitsAt (f : Nat → Nat) (p k j : Nat) :
    (bitsAt f p k).testBit j = (decide (j < k) && p.testBit (f j)) := by
  induction k with
  | zero => simp [bitsAt]
  | succ k ih =>
      rw [bitsAt, Nat.testBit_lor, ih]
      rcases eq_or_ne j k with hj | hj
      · subst hj
        by_cases hb : p.testBit (f j) <;>
          simp [hb, Nat.testBit_two_pow, Nat.lt_irrefl, Nat.lt_succ_self]
      · have h1 : (if p.testBit (f k) then 2 ^ k else 0).testBit j = false := by
          by_cases hb : p.testBit (f k) <;>
            simp [hb, Nat.testBit_two_pow_of_ne (Ne.symm hj)]
        rw [h1]
        rcases Nat.lt_trichotomy j k with h | h | h
        · simp [h, Nat.lt_succ_of_lt h]
        · exact absurd h hj
        · have h2 : ¬ j < k := by omega
          have h3 : ¬ j < k + 1 := by omega
          simp [h2, h3]

lemma ibits_lt (xp yp k : Nat) : ibits xp yp k < 2 ^ (2 * k) := by
  induction k with
  | zero => simp [ibits]
  | succ k ih =>
      rw [ibits]
      have hstep : (2 : Nat) ^ (2 * k + 1) < 2 ^ (2 * (k + 1)) :=
        Nat.pow_lt_pow_right (by norm_num) (by omega)
      have hstep0 : (2 : Nat) ^ (2 * k) < 2 ^ (2 * (k + 1)) :=
        Nat.pow_lt_pow_right (by norm_num) (by omega)
      refine lor_lt_pow _ _ _ (lt_trans ih hstep0) (lor_lt_pow _ _ _ ?_ ?_)
      · by_cases hb : xp.testBit k
        · rw [if_pos hb]; exact hstep0
        · rw [if_neg hb]; positivity
      · by_cases hb : yp.testBit k
        · rw [if_pos hb]; exact hstep
        · rw [if_neg hb]; positivity

lemma testBit_ibits_even (xp yp k i : Nat) :
    (ibits xp yp k).testBit (2 * i) = (decide (i < k) && xp.testBit i) := by
  induction k with
  | zero => simp [ibits]
  | succ k ih =>
      rw [ibits, Nat.testBit_lor, Nat.testBit_lor, ih]
      have hy : (if yp.testBit k then 2 ^ (2 * k + 1) else 0).testBit (2 * i) = false := by
        by_cases hb : yp.testBit k <;>
          simp [hb, Nat.testBit_two_pow_of_ne (by omega : 2 * k + 1 ≠ 2 * i)]
      rw [hy, Bool.or_false]
      rcases eq_or_ne i k with hik | hik
      · subst hik
        by_cases hb : xp.testBit i <;>
          simp [hb, Nat.testBit_two_pow, Nat.lt_irrefl, Nat.lt_succ_self]
      · have hx : (if xp.testBit k then 2 ^ (2 * k) else 0).testBit (2 * i) = false := by
          by_cases hb : xp.testBit k <;>
            simp [hb, Nat.testBit_two_pow_of_ne (by omega : 2 * k ≠ 2 * i)]
        rw [hx, Bool.or_false]
        rcases Nat.lt_trichotomy i k with h | h | h
        · simp [h, Nat.lt_succ_of_lt h]
        · exact absurd h hik
        · have h2 : ¬ i < k := by omega
          have h3 : ¬ i < k + 1 := by omega
          simp [h2, h3]

lemma testBit_ibits_odd (xp yp k i : Nat) :
    (ibits xp yp k).testBit (2 * i + 1) = (decide (i < k) && yp.testBit i) := by
  induction k with
  | zero => simp [ibits]
  | succ k ih =>
      rw [ibits, Nat.testBit_lor, Nat.testBit_lor, ih]
      have hx : (if xp.testBit k then 2 ^ (2 * k) else 0).testBit (2 * i + 1) = false := by
        by_cases hb : xp.testBit k <;>
          simp [hb, Nat.testBit_two_pow_of_ne (by omega : 2 * k ≠ 2 * i + 1)]
      rw [hx, Bool.false_or]
      rcases eq_or_ne i k with hik | hik
      · subst hik
        by_cases hb : yp.testBit i <;>
          simp [hb, Nat.testBit_two_pow, Nat.lt_irrefl, Nat.lt_succ_self]
      · have hy : (if yp.testBit k then 2 ^ (2 * k + 1) else 0).testBit (2 * i + 1) = false := by
          by_cases hb : yp.testBit k <;>
            simp [hb, Nat.testBit_two_pow_of_ne (by omega : 2 * k + 1 ≠ 2 * i + 1)]
        rw [hy, Bool.or_false]
        rcases Nat.lt_trichotomy i k with h | h | h
        · simp [h, Nat.lt_succ_of_lt h]
        · exact absurd h hik
        · have h2 : ¬ i < k := by omega
          have h3 : ¬ i < k + 1 := by omega
          simp [h2, h3]

/-! Evaluating the loops of `getZOrderCoordinates` and `interleave`. -/

lemma foldl_zstep_split (n : Int) (l : List Nat) (p : Int × Int) :
    l.foldl (zstep n) p =
      (l.foldl (fun a i => jsOr a (xterm n i)) p.1,
       l.foldl (fun a i => jsOr a (yterm n i)) p.2) := by
  induction l generalizing p with
  | nil => rfl
  | cons j t ih =>
      rw [List.foldl_cons, List.foldl_cons, List.foldl_cons, ih]
      rfl

lemma xfold_eval (n : Int) :
    ∀ k, k ≤ 16 → (List.range k).foldl (fun a i => jsOr a (xterm n i)) 0 =
      ((bitsAt evIdx (toUint32 n) k : Nat) : Int) := by
  intro k
  induction k with
  | zero => intro _; simp [bitsAt]
  | succ k ih =>
      intro hk
      have hA : bitsAt evIdx (toUint32 n) k < 2147483648 :=
        lt_of_lt_of_le (bitsAt_lt _ _ _)
          (le_trans (Nat.pow_le_pow_right (by norm_num) (show k ≤ 16 by omega))
            (by norm_num))
      have hB : (if (toUint32 n).testBit (2 * k) then 2 ^ k else 0 : Nat) < 2147483648 := by
        by_cases hb : (toUint32 n).testBit (2 * k) <;> simp only [hb, if_true, if_false]
        · exact lt_of_le_of_lt (Nat.pow_le_pow_right (by norm_num) (show k ≤ 16 by omega))
            (by norm_num)
        · norm_num
      rw [List.range_succ, List.foldl_append, List.foldl_cons, List.foldl_nil,
        ih (by omega), xterm_eval n k (by omega), jsOr_natCast _ _ hA hB]
      rfl

lemma yfold_eval (n : Int) :
    ∀ k, k ≤ 15 → (List.range k).foldl (fun a i => jsOr a (yterm n i)) 0 =
      ((bitsAt odIdx (toUint32 n) k : Nat) : Int) := by
  intro k
  induction k with
  | zero => intro _; simp [bitsAt]
  | succ k ih =>
      intro hk
      have hA : bitsAt odIdx (toUint32 n) k < 2147483648 :=
        lt_of_lt_of_le (bitsAt_lt _ _ _)
          (le_trans (Nat.pow_le_pow_right (by norm_num) (show k ≤ 16 by omega))
            (by norm_num))
      have hB : (if (toUint32 n).testBit (2 * k + 1) then 2 ^ k else 0 : Nat) < 2147483648 := by
        by_cases hb : (toUint32 n).testBit (2 * k + 1) <;> simp only [hb, if_true, if_false]
        · exact lt_of_le_of_lt (Nat.pow_le_pow_right (by norm_num) (show k ≤ 16 by omega))
            (by norm_num)
        · norm_num
      rw [List.range_succ, List.foldl_append, List.foldl_cons, List.foldl_nil,
        ih (by omega), yterm_eval n k (by omega), jsOr_natCast _ _ hA hB]
      rfl

lemma ifold_eval (x y : Int) :
    ∀ k, k ≤ 15 → (List.range k).foldl (istep x y) 0 =
      ((ibits (toUint32 x) (toUint32 y) k : Nat) : Int) := by
  intro k
  induction k with
  | zero => intro _; simp [ibits]
  | succ k ih =>
      intro hk
      have hA : ibits (toUint32 x) (toUint32 y) k < 2147483648 :=
        lt_of_lt_of_le (ibits_lt _ _ _)
          (le_trans (Nat.pow_le_pow_right (by norm_num) (show 2 * k ≤ 30 by omega))
            (by norm_num))
      have hBx : (if (toUint32 x).testBit k then 2 ^ (2 * k) else 0 : Nat) < 2147483648 := by
        by_cases hb : (toUint32 x).testBit k <;> simp only [hb, if_true, if_false]
        · exact lt_of_le_of_lt (Nat.pow_le_pow_right (by norm_num) (show 2 * k ≤ 30 by omega))
            (by norm_num)
        · norm_num
      have hBy : (if (toUint32 y).testBit k then 2 ^ (2 * k + 1) else 0 : Nat) < 2147483648 := by
        by_cases hb : (toUint32 y).testBit k <;> simp only [hb, if_true, if_false]
        · exact lt_of_le_of_lt (Nat.pow_le_pow_right (by norm_num) (show 2 * k + 1 ≤ 29 by omega))
            (by norm_num)
        · norm_num
      have hBor : ((if (toUint32 x).testBit k then 2 ^ (2 * k) else 0) |||
          (if (toUint32 y).testBit k then 2 ^ (2 * k + 1) else 0) : Nat) < 2147483648 := by
        have e31 : (2147483648 : Nat) = 2 ^ 31 := by norm_num
        rw [e31]
        exact lor_lt_pow _ _ 31 (e31 ▸ hBx) (e31 ▸ hBy)
      rw [List.range_succ, List.foldl_append, List.foldl_cons, List.foldl_nil, ih (by omega)]
      show jsOr _ (jsOr (ixterm x k) (iyterm y k)) = _
      rw [ixterm_eval x k (by omega), iyterm_eval y k (by omega),
        jsOr_natCast _ _ hBx hBy, jsOr_natCast _ _ hA hBor]
      rfl

/-- The last loop step of `interleave`, split off. -/
lemma interleave_last (x y : Int) :
    interleave x y =
      jsOr ((List.range 15).foldl (istep x y) 0) (jsOr (ixterm x 15) (iyterm y 15)) := by
  unfold interleave
  rw [show (16 : Nat) = 15 + 1 from rfl, List.range_succ, List.foldl_append,
    List.foldl_cons, List.foldl_nil]
  rfl

lemma interleave_bounds (x y : Int) :
    -2147483648 ≤ interleave x y ∧ interleave x y < 2147483648 := by
  rw [interleave_last]; exact jsOr_bounds _ _

/-- The 32-bit pattern computed by `interleave` is the perfect bit interleaving of
the low 16 bits of `x` and of `y`. -/
lemma interleave_pattern (x y : Int) :
    toUint32 (interleave x y) = ibits (toUint32 x) (toUint32 y) 16 := by
  have hA : ibits (toUint32 x) (toUint32 y) 15 < 4294967296 :=
    lt_of_lt_of_le (ibits_lt _ _ _)
      (le_trans (Nat.pow_le_pow_right (by norm_num) (show 2 * 15 ≤ 32 by omega)) (by norm_num))
  have hBx : (if (toUint32 x).testBit 15 then 2 ^ (2 * 15) else 0 : Nat) < 4294967296 := by
    by_cases hb : (toUint32 x).testBit 15 <;> simp only [hb, if_true, if_false] <;> norm_num
  rw [interleave_last, toUint32_jsOr, toUint32_jsOr, ifold_eval x y 15 le_rfl,
    toUint32_natCast _ hA, ixterm_eval x 15 le_rfl, toUint32_natCast _ hBx,
    toUint32_iyterm_15]
  rfl

/-- Full evaluation of `getZOrderCoordinates`: the x component collects the even
bits; the y component collects the odd bits, with the sign bit contributing a
negative `-32768` summand through the arithmetic shift. -/
lemma getZ_eval (n : Int) :
    getZOrderCoordinates n =
      (((bitsAt evIdx (toUint32 n) 16 : Nat) : Int),
       jsOr ((bitsAt odIdx (toUint32 n) 15 : Nat) : Int)
         (if (toUint32 n).testBit 31 then (-32768 : Int) else 0)) := by
  unfold getZOrderCoordinates
  rw [foldl_zstep_split]
  refine Prod.ext ?_ ?_
  · exact xfold_eval n 16 le_rfl
  · show (List.range 16).foldl (fun a i => jsOr a (yterm n i)) 0 = _
    rw [show (16 : Nat) = 15 + 1 from rfl, List.range_succ, List.foldl_append,
      List.foldl_cons, List.foldl_nil, yfold_eval n 15 le_rfl, yterm_eval_15]

lemma getZ_fst_pattern (n : Int) :
    toUint32 (getZOrderCoordinates n).1 = bitsAt evIdx (toUint32 n) 16 := by
  rw [getZ_eval]
  exact toUint32_natCast _
    (lt_of_lt_of_le (bitsAt_lt _ _ _)
      (le_trans (Nat.pow_le_pow_right (by norm_num) (le_refl 16)) (by norm_num)))

lemma getZ_fst_range (n : Int) :
    0 ≤ (getZOrderCoordinates n).1 ∧ (getZOrderCoordinates n).1 < 65536 := by
  rw [getZ_eval]
  constructor
  · show (0 : Int) ≤ ((bitsAt evIdx (toUint32 n) 16 : Nat) : Int)
    positivity
  · show ((bitsAt evIdx (toUint32 n) 16 : Nat) : Int) < 65536
    have h := bitsAt_lt evIdx (toUint32 n) 16
    exact_mod_cast lt_of_lt_of_le h (by norm_num)

lemma getZ_snd_pattern (n : Int) :
    toUint32 (getZOrderCoordinates n).2 =
      bitsAt odIdx (toUint32 n) 15 |||
        (if (toUint32 n).testBit 31 then 4294934528 else 0) := by
  rw [getZ_eval]
  show toUint32 (jsOr _ _) = _
  rw [toUint32_jsOr]
  congr 1
  · exact toUint32_natCast _
      (lt_of_lt_of_le (bitsAt_lt _ _ _)
        (le_trans (Nat.pow_le_pow_right (by norm_num) (show 15 ≤ 32 by norm_num)) (by norm_num)))
  · by_cases hb : (toUint32 n).testBit 31 <;> simp only [hb, if_true, if_false] <;> decide

lemma getZ_snd_bounds (n : Int) :
    -2147483648 ≤ (getZOrderCoordinates n).2 ∧ (getZOrderCoordinates n).2 < 2147483648 := by
  rw [getZ_eval]
  exact jsOr_bounds _ _

lemma mask_testBit_below (i : Nat) (hi : i ≤ 14) : (4294934528 : Nat).testBit i = false := by
  interval_cases i <;> decide

/-- Round trip on the whole signed 32-bit range: re-interleaving the two
deinterleaved coordinates of any 32-bit index gives the index back.  This holds
even for negative indices, because `interleave` masks exactly the 16 low bits of
the sign-extended y coordinate. -/
theorem interleave_getZ (n : Int) (h1 : -2147483648 ≤ n) (h2 : n < 2147483648) :
    interleave (getZOrderCoordinates n).1 (getZOrderCoordinates n).2 = n := by
  have hpat32 : toUint32 n < 2 ^ 32 := by
    have := toUint32_lt n; omega
  have hbits : ibits (toUint32 (getZOrderCoordinates n).1)
      (toUint32 (getZOrderCoordinates n).2) 16 = toUint32 n := by
    apply Nat.eq_of_testBit_eq
    intro j
    rcases Nat.even_or_odd j with hpar | hpar
    · obtain ⟨i, hi⟩ := hpar
      have hj : j = 2 * i := by omega
      subst hj
      rw [testBit_ibits_even, getZ_fst_pattern, testBit_bitsAt]
      by_cases hi16 : i < 16
      · simp [hi16, evIdx]
      · rw [testBit_false_of_lt (toUint32 n) 32 (2 * i) hpat32 (by omega)]
        simp [hi16]
    · obtain ⟨i, hi⟩ := hpar
      subst hi
      rw [testBit_ibits_odd, getZ_snd_pattern, Nat.testBit_lor, testBit_bitsAt]
      by_cases hi16 : i < 16
      · by_cases hi15 : i < 15
        · have hmask : (if (toUint32 n).testBit 31 then (4294934528 : Nat) else 0).testBit i
              = false := by
            by_cases hb : (toUint32 n).testBit 31 <;> simp only [hb, if_true, if_false]
            · exact mask_testBit_below i (by omega)
            · exact Nat.zero_testBit i
          simp [hi16, hi15, hmask, odIdx]
        · have hi15e : i = 15 := by omega
          subst hi15e
          by_cases hb : (toUint32 n).testBit 31
          · simp only [hb, if_true,
              show (4294934528 : Nat).testBit 15 = true from by decide]
            simp [hb]
          · simp only [hb, if_false, Nat.zero_testBit]
            simp [hb]
      · rw [testBit_false_of_lt (toUint32 n) 32 (2 * i + 1) hpat32 (by omega)]
        simp [hi16]
  exact eq_of_toUint32_eq _ _ (interleave_bounds _ _).1 (interleave_bounds _ _).2 h1 h2
    (by rw [interleave_pattern, hbits])

/-- Round trip the other way, on the domain where it holds: any x below `2^16`
and y below `2^15` are recovered exactly by deinterleaving their interleaving. -/
theorem getZ_interleave (x y : Int) (hx0 : 0 ≤ x) (hx : x < 65536)
    (hy0 : 0 ≤ y) (hy : y < 32768) :
    getZOrderCoordinates (interleave x y) = (x, y) := by
  have hpx : toUint32 x = x.toNat := by unfold toUint32; omega
  have hpy : toUint32 y = y.toNat := by unfold toUint32; omega
  have ha : x.toNat < 65536 := by omega
  have hb : y.toNat < 32768 := by omega
  have hq : toUint32 (interleave x y) = ibits x.toNat y.toNat 16 := by
    rw [interleave_pattern, hpx, hpy]
  have hq32 : ibits x.toNat y.toNat 16 < 4294967296 :=
    lt_of_lt_of_le (ibits_lt _ _ _)
      (le_trans (Nat.pow_le_pow_right (by norm_num) (show 2 * 16 ≤ 32 by omega)) (by norm_num))
  have hq31 : ibits x.toNat y.toNat 16 < 2147483648 := by
    have htop : ∀ j, 31 ≤ j → (ibits x.toNat y.toNat 16).testBit j = false := by
      intro j hj
      rcases Nat.even_or_odd j with hpar | hpar
      · obtain ⟨i, hi⟩ := hpar
        have hje : j = 2 * i := by omega
        subst hje
        rw [testBit_ibits_even]
        simp [show ¬ i < 16 by omega]
      · obtain ⟨i, hi⟩ := hpar
        subst hi
        rw [testBit_ibits_odd]
        by_cases hi16 : i < 16
        · have hi15 : i = 15 := by omega
          subst hi15
          rw [testBit_false_of_lt y.toNat 15 15 (by norm_num at hb ⊢; omega) le_rfl]
          simp
        · simp [hi16]
    have h2 : ibits x.toNat y.toNat 16 < 2 ^ 31 := Nat.lt_pow_two_of_testBit _ htop
    omega
  have hval : interleave x y = ((ibits x.toNat y.toNat 16 : Nat) : Int) := by
    rw [← hq]
    exact value_from_pattern _ (interleave_bounds _ _).1 (interleave_bounds _ _).2
      (by rw [hq]; exact hq31)
  rw [hval, getZ_eval]
  have hqpat : toUint32 ((ibits x.toNat y.toNat 16 : Nat) : Int) = ibits x.toNat y.toNat 16 :=
    toUint32_natCast _ hq32
  have hbit31 : (toUint32 ((ibits x.toNat y.toNat 16 : Nat) : Int)).testBit 31 = false := by
    rw [hqpat]
    rw [show (31 : Nat) = 2 * 15 + 1 from rfl, testBit_ibits_odd]
    rw [testBit_false_of_lt y.toNat 15 15 (by norm_num at hb ⊢; omega) le_rfl]
    simp
  refine Prod.ext ?_ ?_
  · show ((bitsAt evIdx _ 16 : Nat) : Int) = x
    rw [hqpat]
    have hx_bits : bitsAt evIdx (ibits x.toNat y.toNat 16) 16 = x.toNat := by
      apply Nat.eq_of_testBit_eq
      intro j
      rw [testBit_bitsAt]
      show (decide (j < 16) && (ibits x.toNat y.toNat 16).testBit (evIdx j)) = _
      unfold evIdx
      rw [testBit_ibits_even]
      by_cases hj : j < 16
      · simp [hj]
      · rw [testBit_false_of_lt x.toNat 16 j (by norm_num at ha ⊢; omega) (by omega)]
        simp [hj]
    rw [hx_bits]
    exact Int.toNat_of_nonneg hx0
  · show jsOr ((bitsAt odIdx _ 15 : Nat) : Int) _ = y
    rw [hbit31, if_neg (by simp), hqpat]
    rw [show (0 : Int) = ((0 : Nat) : Int) from rfl]
    rw [jsOr_natCast _ _
      (lt_of_lt_of_le (bitsAt_lt _ _ _)
        (le_trans (Nat.pow_le_pow_right (by norm_num) (show 15 ≤ 30 by norm_num)) (by norm_num)))
      (by norm_num), Nat.or_zero]
    have hy_bits : bitsAt odIdx (ibits x.toNat y.toNat 16) 15 = y.toNat := by
      apply Nat.eq_of_testBit_eq
      intro j
      rw [testBit_bitsAt]
      show (decide (j < 15) && (ibits x.toNat y.toNat 16).testBit (odIdx j)) = _
      unfold odIdx
      rw [testBit_ibits_odd]
      by_cases hj : j < 15
      · simp [hj, show j < 16 by omega]
      · rw [testBit_false_of_lt y.toNat 15 j (by norm_num at hb ⊢; omega) (by omega)]
        simp [hj]
    rw [hy_bits]
    exact Int.toNat_of_nonneg hy0

/-- C1 (counterexample): the claimed coordinate round trip fails at
`(x, y) = (0, 32768)`: interleaving puts bit 15 of `y` on bit 31, and the
arithmetic `>>` of `getZOrderCoordinates` brings it back sign-extended, giving
`(0, -32768)` instead of `(0, 32768)`. -/
theorem C1_counterexample :
    getZOrderCoordinates (interleave 0 32768) = (0, -32768) ∧
    getZOrderCoordinates (interleave 0 32768) ≠ ((0 : Int), (32768 : Int)) := by
  constructor
  · decide
  · decide

/-- C1 (amended): Morton round trip under the 32-bit semantics of
src/js/z-order.js.  `interleave` of `getZOrderCoordinates n` returns `n` for
every `0 ≤ n < 2^31` (so in particular for all `n` up to `2^30` as claimed);
`getZOrderCoordinates (interleave x y) = (x, y)` holds for all `x < 2^16` and
`y < 2^15` — but not for `2^15 ≤ y < 2^16`, where bit 15 of `y` reaches the
sign bit (see the counterexample). -/
theorem C1_morton_roundtrip :
    (∀ n : Int, 0 ≤ n → n < 2147483648 →
      interleave (getZOrderCoordinates n).1 (getZOrderCoordinates n).2 = n) ∧
    (∀ x y : Int, 0 ≤ x → x < 65536 → 0 ≤ y → y < 32768 →
      getZOrderCoordinates (interleave x y) = (x, y)) :=
  ⟨fun n h1 h2 => interleave_getZ n (by omega) h2,
   fun x y hx0 hx hy0 hy => getZ_interleave x y hx0 hx hy0 hy⟩

theorem C1_morton_roundtrip_witness :
    interleave (getZOrderCoordinates 1073741825).1 (getZOrderCoordinates 1073741825).2
        = 1073741825 ∧
    getZOrderCoordinates (interleave 12345 6789) = (12345, 6789) :=
  ⟨C1_morton_roundtrip.1 1073741825 (by norm_num) (by norm_num),
   C1_morton_roundtrip.2 12345 6789 (by norm_num) (by norm_num) (by norm_num) (by norm_num)⟩

/-- C2: drift-free window positioning.  `startSampleOf` is, by definition,
`round (i * windowIntervalSamples)` computed fresh for each `i` on the exact
rational interval; at bpm 120, 64 samples per beat, 44100 Hz the interval is
exactly 344.53125, window 1000 starts at `round 344531.25 = 344531`, and the
accumulated rounded step would instead give `1000 * round 344.53125 = 345000`. -/
theorem C2_drift_free :
    (∀ (i : Nat) (q : ℚ), startSampleOf i q = round ((i : ℚ) * q)) ∧
    windowIntervalSamples 120 64 44100 = 344.53125 ∧
    (1000 : ℚ) * windowIntervalSamples 120 64 44100 = 344531.25 ∧
    startSampleOf 1000 (windowIntervalSamples 120 64 44100) = 344531 ∧
    1000 * round ((344.53125 : ℚ)) = 345000 := by
  refine ⟨fun i q => rfl, ?_, ?_, ?_, ?_⟩
  · norm_num [windowIntervalSamples, windowIntervalSeconds, windowsPerSecond]
  · norm_num [windowIntervalSamples, windowIntervalSeconds, windowsPerSecond]
  · norm_num [startSampleOf, windowIntervalSamples, windowIntervalSeconds,
      windowsPerSecond, round_eq]
  · norm_num [round_eq]

/-- C3: canvas sizing.  For every `totalWindows ≥ 1` the computed geometry is a
power-of-two pair whose product is at least `totalWindows` and is the smallest
power-of-two product with that property; 1000 windows give 32×32 and 1025 give
64×32. -/
theorem C3_canvas_sizing (totalWindows : Nat) (h1W : 1 ≤ totalWindows) :
    totalWindows ≤ (canvasGeometry totalWindows).1 * (canvasGeometry totalWindows).2 ∧
    (∀ a b : Nat, totalWindows ≤ 2 ^ a * 2 ^ b →
      (canvasGeometry totalWindows).1 * (canvasGeometry totalWindows).2 ≤ 2 ^ a * 2 ^ b) ∧
    canvasGeometry 1000 = (32, 32) ∧ canvasGeometry 1025 = (64, 32) := by
  have hprod : (canvasGeometry totalWindows).1 * (canvasGeometry totalWindows).2
      = 2 ^ Nat.clog 2 totalWindows := by
    show 2 ^ ((Nat.clog 2 totalWindows + 1) / 2) * 2 ^ (Nat.clog 2 totalWindows / 2)
        = 2 ^ Nat.clog 2 totalWindows
    rw [← pow_add]
    congr 1
    omega
  refine ⟨?_, ?_, ?_, ?_⟩
  · rw [hprod]
    exact Nat.le_pow_clog one_lt_two _
  · intro a b hab
    rw [hprod, ← pow_add]
    exact Nat.pow_le_pow_right (by norm_num)
      ((Nat.le_pow_iff_clog_le one_lt_two).mp (by rwa [pow_add]))
  · show (let totalBits := Nat.clog 2 1000;
      let xBits := (totalBits + 1) / 2;
      let yBits := totalBits / 2;
      ((2 ^ xBits, 2 ^ yBits) : Nat × Nat)) = (32, 32)
    rw [clog_two_eq 1000 10 (by norm_num) (by norm_num) (by norm_num)]
    decide
  · show (let totalBits := Nat.clog 2 1025;
      let xBits := (totalBits + 1) / 2;
      let yBits := totalBits / 2;
      ((2 ^ xBits, 2 ^ yBits) : Nat × Nat)) = (64, 32)
    rw [clog_two_eq 1025 11 (by norm_num) (by norm_num) (by norm_num)]
    decide

theorem C3_canvas_sizing_witness :
    1 ≤ 1000 ∧ 1000 ≤ (canvasGeometry 1000).1 * (canvasGeometry 1000).2 :=
  ⟨by norm_num, (C3_canvas_sizing 1000 (by norm_num)).1⟩

/-- C5 (counterexample): an invalid configuration (bpm = -120 ≤ 0) is not
rejected.  `processAudio` has no validation branch: it computes the window
interval (-344.53125), the z-order offset and the total window count (-1280
for a 441000-sample buffer) and proceeds, where the claim demands that a
configuration error be surfaced and that no window-interval computation take
place. -/
theorem C5_counterexample :
    processAudioPrelude (-120) 64 44100 0 441000 = some (-344.53125, 0, -1280) := by
  unfold processAudioPrelude windowIntervalSamples windowIntervalSeconds
    windowsPerSecond zOrderOffsetOf totalWindowsJS
  norm_num [round_eq]

/-- C5 (amended): the pipeline performs no configuration validation at all:
for every configuration — finite or not representable here, positive or not —
the prelude of `processAudio` unconditionally computes and returns its values,
and no configuration error is ever surfaced. -/
theorem C5_no_validation (bpm samplesPerBeat sampleRate zOrderOffsetSeconds : ℚ)
    (audioLength : Nat) :
    (processAudioPrelude bpm samplesPerBeat sampleRate zOrderOffsetSeconds
      audioLength).isSome = true := rfl

lemma foldl_sq_nonneg (xs : List ℚ) (l : List Nat) (c : ℚ) (hc : 0 ≤ c) :
    0 ≤ l.foldl (fun sum i => sum + xs.getD i 0 * xs.getD i 0) c := by
  induction l generalizing c with
  | nil => exact hc
  | cons j t ih =>
      rw [List.foldl_cons]
      exact ih _ (by nlinarith [mul_self_nonneg (xs.getD j 0)])

lemma sumSquares_nonneg (xs : List ℚ) (s e : Nat) : 0 ≤ sumSquares xs s e :=
  foldl_sq_nonneg xs _ 0 le_rfl

lemma rmsMeanSquare_nonneg (xs : List ℚ) (s w : Nat) : 0 ≤ rmsMeanSquare xs s w := by
  unfold rmsMeanSquare
  exact div_nonneg (sumSquares_nonneg _ _ _) (by positivity)

/-- C10: the pipeline never evaluates the RMS of an empty window.  For any
interval of at least one sample, every window index below the computed
`totalWindows` starts strictly inside the buffer, the truncated window keeps at
least one sample (for a positive `windowSize`, as the data model requires), and
the recorded mean square is a well-defined non-negative rational — the 0/0 NaN
branch of `calculateRMSPower` is unreachable from the pipeline. -/
theorem C10_pipeline_no_nan (audioData : List ℚ) (intervalSamples : ℚ)
    (windowSize : Nat) (hint : 1 ≤ intervalSamples) (hws : 1 ≤ windowSize) (i : Nat)
    (hi : (i : Int) < totalWindowsJS audioData.length intervalSamples) :
    0 ≤ startSampleOf i intervalSamples ∧
    startSampleOf i intervalSamples < (audioData.length : Int) ∧
    1 ≤ min ((startSampleOf i intervalSamples).toNat + windowSize) audioData.length
        - (startSampleOf i intervalSamples).toNat ∧
    0 ≤ rmsMeanSquare audioData (startSampleOf i intervalSamples).toNat windowSize := by
  have hpos : (0 : ℚ) < intervalSamples := by linarith
  have hfl : ((i : ℚ) + 1) ≤ (audioData.length : ℚ) / intervalSamples := by
    have h1 : (i : Int) + 1 ≤ totalWindowsJS audioData.length intervalSamples := by omega
    have h2 := Int.le_floor.mp h1
    push_cast at h2
    exact h2
  have hmul : ((i : ℚ) + 1) * intervalSamples ≤ (audioData.length : ℚ) :=
    (le_div_iff₀ hpos).mp hfl
  have himul : (0 : ℚ) ≤ (i : ℚ) * intervalSamples :=
    mul_nonneg (by positivity) hpos.le
  have hs0 : 0 ≤ startSampleOf i intervalSamples := by
    unfold startSampleOf
    rw [round_eq]
    refine Int.le_floor.mpr ?_
    push_cast
    linarith
  have hslt : startSampleOf i intervalSamples < (audioData.length : Int) := by
    unfold startSampleOf
    rw [round_eq]
    refine Int.floor_lt.mpr ?_
    push_cast
    nlinarith
  refine ⟨hs0, hslt, ?_, rmsMeanSquare_nonneg _ _ _⟩
  omega

theorem C10_pipeline_no_nan_witness :
    0 ≤ startSampleOf 1 (3 / 2) ∧
    startSampleOf 1 (3 / 2) < (([1, 2, 3] : List ℚ).length : Int) ∧
    1 ≤ min ((startSampleOf 1 (3 / 2)).toNat + 1) ([1, 2, 3] : List ℚ).length
        - (startSampleOf 1 (3 / 2)).toNat ∧
    0 ≤ rmsMeanSquare [1, 2, 3] (startSampleOf 1 (3 / 2)).toNat 1 :=
  C10_pipeline_no_nan [1, 2, 3] (3 / 2) 1 (by norm_num) (by norm_num) 1
    (by norm_num [totalWindowsJS])

lemma foldl_add_eq (xs : List ℚ) (l : List Nat) (c : ℚ) :
    l.foldl (fun sum i => sum + xs.getD i 0 * xs.getD i 0) c
      = c + (l.map (fun i => xs.getD i 0 * xs.getD i 0)).sum := by
  induction l generalizing c with
  | nil => simp
  | cons j t ih =>
      rw [List.foldl_cons, ih, List.map_cons, List.sum_cons]
      ring

lemma range'_map_getD (xs : List ℚ) :
    ∀ (k s : Nat), s + k ≤ xs.length →
      (List.range' s k).map (fun i => xs.getD i 0) = (xs.drop s).take k := by
  intro k
  induction k with
  | zero => intro s _; simp
  | succ k ih =>
      intro s hs
      have hslen : s < xs.length := by omega
      rw [List.range'_succ, List.map_cons, ih (s + 1) (by omega),
        List.drop_eq_getElem_cons hslen, List.take_succ_cons]
      congr 1
      rw [List.getD_eq_getElem?_getD, List.getElem?_eq_getElem hslen, Option.getD_some]

lemma take_min_length (l : List ℚ) (w : Nat) : l.take (min w l.length) = l.take w := by
  rcases le_total w l.length with h | h
  · rw [min_eq_left h]
  · rw [min_eq_right h, List.take_length, List.take_of_length_le h]

lemma sumSquares_eq_window (xs : List ℚ) (s w : Nat) (hs : s ≤ xs.length) :
    sumSquares xs s (min (s + w) xs.length)
      = (((xs.drop s).take w).map (fun a => a * a)).sum := by
  unfold sumSquares
  rw [foldl_add_eq, zero_add]
  have hmap : (List.range' s (min (s + w) xs.length - s)).map
        (fun i => xs.getD i 0 * xs.getD i 0)
      = ((List.range' s (min (s + w) xs.length - s)).map
          (fun i => xs.getD i 0)).map (fun a => a * a) := by
    rw [List.map_map]
    rfl
  rw [hmap, range'_map_getD xs (min (s + w) xs.length - s) s (by omega)]
  congr 1
  have hlen : min (s + w) xs.length - s = min w ((xs.drop s).length) := by
    rw [List.length_drop]
    omega
  rw [hlen, take_min_length]

/-- C4: RMS with end-of-buffer truncation.  For a start inside the buffer and a
positive window, `calculateRMSPower` is the square root of the mean of the
squared samples over the truncated window `[startSample, min (startSample +
windowSize) length)`, whose length — the averaging divisor — is the actual
truncated count `min (startSample + windowSize) length - startSample`, not the
nominal `windowSize`; the divisor is positive. -/
theorem C4_rms_truncated (audioData : List ℚ) (startSample windowSize : Nat)
    (hs : startSample < audioData.length) (hw : 0 < windowSize) :
    calculateRMSPower audioData startSample windowSize =
      Real.sqrt (((((audioData.drop startSample).take windowSize).map
          (fun a => a * a)).sum
        / ((((audioData.drop startSample).take windowSize).length : ℚ)) : ℚ)) ∧
    ((audioData.drop startSample).take windowSize).length
      = min (startSample + windowSize) audioData.length - startSample ∧
    0 < ((audioData.drop startSample).take windowSize).length := by
  have hlen : ((audioData.drop startSample).take windowSize).length
      = min (startSample + windowSize) audioData.length - startSample := by
    rw [List.length_take, List.length_drop]
    omega
  refine ⟨?_, hlen, by rw [hlen]; omega⟩
  unfold calculateRMSPower rmsMeanSquare
  show Real.sqrt
      ((sumSquares audioData startSample (min (startSample + windowSize) audioData.length)
        / ((min (startSample + windowSize) audioData.length - startSample : Nat) : ℚ) : ℚ)) = _
  rw [sumSquares_eq_window audioData startSample windowSize (by omega), hlen]

theorem C4_rms_truncated_witness :
    (calculateRMSPower [3, 4] 0 2 =
      Real.sqrt ((((([3, 4] : List ℚ).drop 0).take 2).map (fun a => a * a)).sum
        / (((([3, 4] : List ℚ).drop 0).take 2).length : ℚ) : ℚ) ∧
    ((([3, 4] : List ℚ).drop 0).take 2).length
      = min (0 + 2) ([3, 4] : List ℚ).length - 0 ∧
    0 < ((([3, 4] : List ℚ).drop 0).take 2).length) ∧
    calculateRMSPower [3, 4] 0 2 = Real.sqrt ((25 : ℝ) / 2) ∧
    calculateRMSPower [1, 1] 1 4 = Real.sqrt ((1 : ℝ) / 1) := by
  refine ⟨C4_rms_truncated [3, 4] 0 2 (by norm_num) (by norm_num), ?_, ?_⟩
  · rw [(C4_rms_truncated [3, 4] 0 2 (by norm_num) (by norm_num)).1]
    norm_num
  · rw [(C4_rms_truncated [1, 1] 1 4 (by norm_num) (by norm_num)).1]
    norm_num

lemma jsSub_none_left (b : Option ℚ) : jsSub none b = none := by cases b <;> rfl

lemma jsDivQ_none_left (b : Option ℚ) : jsDivQ none b = none := by cases b <;> rfl

lemma jsMul_none_left (b : Option ℚ) : jsMul none b = none := by cases b <;> rfl

lemma jsMin_none_right (a : Option ℚ) : jsMin a none = none := by cases a <;> rfl

lemma jsMax_none_right (a : Option ℚ) : jsMax a none = none := by cases a <;> rfl

lemma jsFloorIdx_none : jsFloorIdx none = none := rfl

/-- On plain rational inputs (no NaN), `powerToColor` always produces a color:
after clamping to `[0, 1]` the scaled index `⌊clamped * 255⌋` lies in
`[0, 255]`, inside the table. -/
lemma powerToColor_total_of_rat (table : Nat → Nat × Nat × Nat) (p minP maxP : ℚ) :
    (powerToColor table (some p) (some minP) (some maxP)).isSome = true := by
  unfold powerToColor
  by_cases heq : jsStrictEq (some minP) (some maxP) = true
  · rw [if_pos heq]
    rfl
  · rw [if_neg heq]
    have hne : maxP - minP ≠ 0 := by
      intro hc
      exact heq (by simp [jsStrictEq, beq_iff_eq]; linarith)
    set q : ℚ := (p - minP) / (maxP - minP) with hq
    have hchain : jsFloorIdx (jsMul (jsMax (some 0) (jsMin (some 1)
        (jsDivQ (jsSub (some p) (some minP)) (jsSub (some maxP) (some minP)))))
        (some 255)) = some ⌊max 0 (min 1 q) * 255⌋ := by
      simp [jsSub, jsDivQ, hne, jsMin, jsMax, jsMul, jsFloorIdx]
    have h0 : (0 : ℚ) ≤ max 0 (min 1 q) := le_max_left 0 _
    have h1 : max 0 (min 1 q) ≤ 1 := by
      rcases le_total 0 (min 1 q) with h | h
      · rw [max_eq_right h]; exact le_trans (min_le_left 1 q) le_rfl
      · rw [max_eq_left h]; norm_num
    have hlo : (0 : Int) ≤ ⌊max 0 (min 1 q) * 255⌋ :=
      Int.le_floor.mpr (by push_cast; nlinarith)
    have hhi : ⌊max 0 (min 1 q) * 255⌋ ≤ 255 :=
      le_trans (Int.floor_le_floor (by nlinarith : max 0 (min 1 q) * 255 ≤ 255))
        (by norm_num)
    rw [hchain]
    simp [hlo, hhi]

/-- C7 (counterexample): with a NaN power and a non-degenerate range, the color
lookup index is NaN, `viridisMap[NaN]` is undefined and the destructuring
throws — `powerToColor` does not return the midpoint entry. -/
theorem C7_counterexample :
    powerToColor (fun _ => (0, 0, 0)) none (some 0) (some 1) = none ∧
    powerToColor (fun _ => (0, 0, 0)) none (some 0) (some 1)
      ≠ some ((0 : Nat), (0 : Nat), (0 : Nat), (255 : Nat)) := by
  constructor <;> decide

/-- C7 (amended): the degenerate `minPower === maxPower` range does map to the
table's midpoint entry (index 128); but a NaN `normalized` (NaN power with a
non-degenerate range) makes the lookup fail — modelled `none` — rather than
yield the midpoint, so `powerToColor` is not total on NaN inputs. -/
theorem C7_degenerate_color (table : Nat → Nat × Nat × Nat)
    (power minPower maxPower : Option ℚ) :
    (jsStrictEq minPower maxPower = true →
      powerToColor table power minPower maxPower
        = some ((table 128).1, (table 128).2.1, (table 128).2.2, 255)) ∧
    (jsStrictEq minPower maxPower = false →
      powerToColor table none minPower maxPower = none) := by
  constructor
  · intro h
    simp [powerToColor, h]
  · intro h
    simp [powerToColor, h, jsSub_none_left, jsDivQ_none_left, jsMul_none_left,
      jsMin_none_right, jsMax_none_right, jsFloorIdx_none]

theorem C7_degenerate_color_witness :
    powerToColor (fun _ => (1, 2, 3)) (some 5) (some 2) (some 2) = some (1, 2, 3, 255) ∧
    powerToColor (fun _ => (1, 2, 3)) none (some 0) (some 1) = none :=
  ⟨(C7_degenerate_color (fun _ => (1, 2, 3)) (some 5) (some 2) (some 2)).1 (by decide),
   (C7_degenerate_color (fun _ => (1, 2, 3)) none (some 0) (some 1)).2 (by decide)⟩

/-- C6: offset redraw purity.  `redrawCanvas` assigns no state field: for any
two offsets the state it leaves — in particular every cached power value and
every stored maximum — is exactly the input state; the offset only moves pixel
placements inside the freshly created image. -/
theorem C6_offset_redraw_purity (table : Nat → Nat × Nat × Nat) (state : AppState)
    (off1 off2 : Int) :
    (redrawCanvas table state off1).1 = state ∧
    (redrawCanvas table state off2).1 = state ∧
    (redrawCanvas table state off1).1.cachedPowers = state.cachedPowers ∧
    (redrawCanvas table state off1).1.cachedRGBPowers = state.cachedRGBPowers ∧
    (redrawCanvas table state off1).1.maxPowerMono = state.maxPowerMono ∧
    (redrawCanvas table state off1).1.maxPowerRGB = state.maxPowerRGB ∧
    (redrawCanvas table state off1).1 = (redrawCanvas table state off2).1 := by
  have h : ∀ off : Int, (redrawCanvas table state off).1 = state := by
    intro off
    unfold redrawCanvas
    rcases state.cachedPowers with _ | p <;> rcases state.cachedRGBPowers with _ | r <;> rfl
  refine ⟨h off1, h off2, ?_, ?_, ?_, ?_, ?_⟩ <;> rw [h off1]
  exact (h off2).symm

lemma setByte_neg (img : ImageDataModel) (idx : Int) (v : Nat) (h : idx < 0) :
    setByte img idx v = img := by
  unfold setByte
  rw [if_neg (by omega)]

lemma writePixel_neg (img : ImageDataModel) (pix : Int) (c : RGBA) (h : pix ≤ -4) :
    writePixel img pix c = img := by
  unfold writePixel
  rw [setByte_neg _ _ _ (by omega), setByte_neg _ _ _ (by omega),
    setByte_neg _ _ _ (by omega), setByte_neg _ _ _ (by omega)]

/-- C9: off-canvas windows are skipped, not clamped or wrapped.  If the Morton
coordinates of the adjusted index `i + zOrderOffset` fall outside
`[0, width) × [0, height)`, then the per-window render step of both the mono
and the RGB loop leaves the pixel buffer completely unchanged: coordinates
failing the `x < width && y < height` test take the skip branch, and a
negative `y` (a sign-extended coordinate, which passes that test) makes every
byte index negative, so the typed-array writes are all ignored. -/
theorem C9_offcanvas_skipped (table : Nat → Nat × Nat × Nat) (width height : Nat)
    (maxPowerMono : ℚ) (maxP : MaxPowerRGB) (zOrderOffset : Int) (p pl pm ph : ℚ)
    (i : Nat) (img : ImageDataModel)
    (hout : ¬ (0 ≤ (getZOrderCoordinates ((i : Int) + zOrderOffset)).1 ∧
               (getZOrderCoordinates ((i : Int) + zOrderOffset)).1 < (width : Int) ∧
               0 ≤ (getZOrderCoordinates ((i : Int) + zOrderOffset)).2 ∧
               (getZOrderCoordinates ((i : Int) + zOrderOffset)).2 < (height : Int))) :
    monoWindowDraw table width height maxPowerMono zOrderOffset p i img = img ∧
    rgbWindowDraw width height maxP zOrderOffset pl pm ph i img = img := by
  have hx0 := (getZ_fst_range ((i : Int) + zOrderOffset)).1
  by_cases hjs : (getZOrderCoordinates ((i : Int) + zOrderOffset)).1 < (width : Int) ∧
      (getZOrderCoordinates ((i : Int) + zOrderOffset)).2 < (height : Int)
  · have hyneg : (getZOrderCoordinates ((i : Int) + zOrderOffset)).2 < 0 := by
      by_contra hy
      exact hout ⟨hx0, hjs.1, by omega, hjs.2⟩
    have hpix : ((getZOrderCoordinates ((i : Int) + zOrderOffset)).2 * width
        + (getZOrderCoordinates ((i : Int) + zOrderOffset)).1) * 4 ≤ -4 := by
      have hw1 : (1 : Int) ≤ width := by omega
      have hyw : (getZOrderCoordinates ((i : Int) + zOrderOffset)).2 * width
          ≤ -1 * width := by
        apply mul_le_mul_of_nonneg_right (by omega) (by omega)
      nlinarith [hjs.1]
    constructor
    · unfold monoWindowDraw
      rw [if_pos hjs]
      rcases hcol : powerToColor table (some p) (some 0) (some maxPowerMono) with _ | col
      · rfl
      · exact writePixel_neg _ _ _ hpix
    · unfold rgbWindowDraw
      rw [if_pos hjs]
      exact writePixel_neg _ _ _ hpix
  · constructor
    · unfold monoWindowDraw
      rw [if_neg hjs]
    · unfold rgbWindowDraw
      rw [if_neg hjs]

theorem C9_offcanvas_skipped_witness :
    monoWindowDraw (fun _ => (0, 0, 0)) 2 2 1 0 1 4 ⟨16, fun _ => 0⟩ = ⟨16, fun _ => 0⟩ ∧
    rgbWindowDraw 2 2 ⟨1, 1, 1⟩ 0 1 1 1 4 ⟨16, fun _ => 0⟩ = ⟨16, fun _ => 0⟩ :=
  C9_offcanvas_skipped (fun _ => (0, 0, 0)) 2 2 1 ⟨1, 1, 1⟩ 0 1 1 1 1 4 ⟨16, fun _ => 0⟩
    (by decide)

/-- C8 (counterexample): with a z-order offset of `2^32` windows the adjusted
index wraps to 0 under ToInt32, so `getCanvasPositionForTime` returns the
(0, 0) coordinate, yet `getTimeForCanvasClick` at that coordinate computes the
window index `0 - 2^32`, a negative time, and returns null instead of a time
within one window interval. -/
theorem C8_counterexample :
    getCanvasPositionForTime 0 60 1 32 4294967296 = some (0, 0) ∧
    getTimeForCanvasClick 0 0 60 1 4294967296 10 = none := by
  constructor
  · unfold getCanvasPositionForTime
    rw [if_neg (by norm_num)]
    dsimp only
    rw [show ⌊(0 : ℚ) / windowIntervalSeconds 60 1⌋ = 0 from by
      norm_num [windowIntervalSeconds, windowsPerSecond]]
    decide
  · unfold getTimeForCanvasClick
    rw [if_neg (by norm_num)]
    dsimp only
    rw [show interleave 0 0 = 0 from by decide]
    rw [if_pos (Or.inl (by norm_num [windowIntervalSeconds, windowsPerSecond]))]

/-- C8 (amended): time-coordinate inverse consistency, for a valid tempo
configuration and an adjusted window index within the signed 32-bit range (the
amendment forced by the wrap-around counterexample).  Whenever
`getCanvasPositionForTime` returns a coordinate, clicking that coordinate
returns the start time of the enclosing window: `t' = ⌊t / wis⌋ * wis` with
`0 ≤ t - t' < wis`, one window interval. -/
theorem C8_time_coordinate_inverse (t bpm spb duration : ℚ) (size : Nat) (off : Int)
    (hbpm : 0 < bpm) (hspb : 0 < spb) (ht0 : 0 ≤ t) (htd : t < duration)
    (hlo : -2147483648 ≤ ⌊t / windowIntervalSeconds bpm spb⌋ + off)
    (hhi : ⌊t / windowIntervalSeconds bpm spb⌋ + off < 2147483648)
    (x y : Int)
    (hpos : getCanvasPositionForTime t bpm spb size off = some (x, y)) :
    getTimeForCanvasClick x y bpm spb off duration
        = some ((⌊t / windowIntervalSeconds bpm spb⌋ : ℚ) * windowIntervalSeconds bpm spb) ∧
    0 ≤ t - (⌊t / windowIntervalSeconds bpm spb⌋ : ℚ) * windowIntervalSeconds bpm spb ∧
    t - (⌊t / windowIntervalSeconds bpm spb⌋ : ℚ) * windowIntervalSeconds bpm spb
        < windowIntervalSeconds bpm spb := by
  have hΔ : 0 < windowIntervalSeconds bpm spb := by
    unfold windowIntervalSeconds windowsPerSecond
    positivity
  have hspb0 : spb ≠ 0 := ne_of_gt hspb
  have hk0 : 0 ≤ ⌊t / windowIntervalSeconds bpm spb⌋ :=
    Int.le_floor.mpr (by push_cast; exact div_nonneg ht0 hΔ.le)
  have hkle : (⌊t / windowIntervalSeconds bpm spb⌋ : ℚ) * windowIntervalSeconds bpm spb ≤ t :=
    (le_div_iff₀ hΔ).mp (Int.floor_le _)
  have hklt : t < ((⌊t / windowIntervalSeconds bpm spb⌋ : ℚ) + 1)
      * windowIntervalSeconds bpm spb := by
    have h := Int.lt_floor_add_one (t / windowIntervalSeconds bpm spb)
    have h2 := (div_lt_iff₀ hΔ).mp h
    push_cast at h2 ⊢
    linarith
  unfold getCanvasPositionForTime at hpos
  by_cases hsz : size = 0
  · rw [if_pos (Or.inr hsz)] at hpos
    exact absurd hpos (by simp)
  rw [if_neg (by push_neg; exact ⟨hspb0, hsz⟩)] at hpos
  dsimp only at hpos
  by_cases hbound : (size : Int) ≤ (getZOrderCoordinates
        (⌊t / windowIntervalSeconds bpm spb⌋ + off)).1 ∨
      (size : Int) ≤ (getZOrderCoordinates (⌊t / windowIntervalSeconds bpm spb⌋ + off)).2
  · rw [if_pos hbound] at hpos
    exact absurd hpos (by simp)
  rw [if_neg hbound] at hpos
  have hxy : getZOrderCoordinates (⌊t / windowIntervalSeconds bpm spb⌋ + off) = (x, y) :=
    Option.some.inj hpos
  have hround : interleave x y = ⌊t / windowIntervalSeconds bpm spb⌋ + off := by
    have h := interleave_getZ (⌊t / windowIntervalSeconds bpm spb⌋ + off) hlo hhi
    rw [hxy] at h
    exact h
  refine ⟨?_, by linarith, by nlinarith⟩
  unfold getTimeForCanvasClick
  rw [if_neg hspb0]
  dsimp only
  rw [hround]
  have hsub : ((⌊t / windowIntervalSeconds bpm spb⌋ + off - off : Int) : ℚ)
      = (⌊t / windowIntervalSeconds bpm spb⌋ : ℚ) := by
    push_cast
    ring
  rw [hsub]
  rw [if_neg ?_]
  push_neg
  constructor
  · positivity
  · linarith

theorem C8_time_coordinate_inverse_witness :
    getCanvasPositionForTime (5 / 2) 60 1 32 0 = some (0, 1) ∧
    getTimeForCanvasClick 0 1 60 1 0 10
        = some ((⌊(5 / 2 : ℚ) / windowIntervalSeconds 60 1⌋ : ℚ)
            * windowIntervalSeconds 60 1) ∧
    0 ≤ (5 / 2 : ℚ) - (⌊(5 / 2 : ℚ) / windowIntervalSeconds 60 1⌋ : ℚ)
        * windowIntervalSeconds 60 1 ∧
    (5 / 2 : ℚ) - (⌊(5 / 2 : ℚ) / windowIntervalSeconds 60 1⌋ : ℚ)
        * windowIntervalSeconds 60 1 < windowIntervalSeconds 60 1 := by
  have hfloor : ⌊(5 / 2 : ℚ) / windowIntervalSeconds 60 1⌋ = 2 := by
    norm_num [windowIntervalSeconds, windowsPerSecond]
  have hpos : getCanvasPositionForTime (5 / 2) 60 1 32 0 = some (0, 1) := by
    unfold getCanvasPositionForTime
    rw [if_neg (by norm_num)]
    dsimp only
    rw [hfloor]
    decide
  exact ⟨hpos,
    C8_time_coordinate_inverse (5 / 2) 60 1 10 32 0 (by norm_num) (by norm_num)
      (by norm_num) (by norm_num) (by rw [hfloor]; norm_num) (by rw [hfloor]; norm_num)
      0 1 hpos⟩
